import Mathlib

/-!
Shallow embedding of the document-ingestion pipeline of the `mcp_rag`
repository (package `rag_store`): the processor registry, the per-format
extraction strategies with their fallback chains, and the chunking /
metadata-enrichment contract.  Definitions are translated from the Python
source under `src/rag_store/`; the two LangChain text splitters
(`CharacterTextSplitter`, `RecursiveCharacterTextSplitter`) are external
library code and are modelled from the specification's description of the
chunk-splitter contract.
-/

namespace RagStore

/-- A metadata value: the Python code stores strings, integers and booleans
in the chunk metadata dictionaries. -/
inductive MetaVal where
  | s (v : String)
  | n (v : Nat)
  | b (v : Bool)
  deriving DecidableEq, Repr

/-- A metadata dictionary, modelled as an association list in which the
first occurrence of a key wins.  Python `dict.update(d)` is modelled by
prepending the entries of `d`, which gives `d`'s keys priority on lookup. -/
abbrev Metadata := List (String × MetaVal)

/-- First-match lookup in a metadata dictionary. -/
def Metadata.lookup (m : Metadata) (k : String) : Option MetaVal :=
  List.lookup k m

/-- Python `d.update(new)`: keys of `new` shadow keys of `d`. -/
def Metadata.update (m : Metadata) (new : Metadata) : Metadata :=
  new ++ m

/-- A LangChain `Document`: page content plus a metadata dictionary. -/
structure Doc where
  content : String
  metadata : Metadata
  deriving DecidableEq

/-- Byte-wise list prefix test, the base of the substring test. -/
def isPrefixList : List Char → List Char → Bool
  | [], _ => true
  | _ :: _, [] => false
  | a :: as, b :: bs => a = b && isPrefixList as bs

/-- Occurrence of `needle` in `hay` (Python `needle in hay`). -/
def containsList (needle : List Char) : List Char → Bool
  | [] => needle.isEmpty
  | c :: rest => isPrefixList needle (c :: rest) || containsList needle rest

/-- Fuel-driven splitting worker: at each position either consume a
separator occurrence (cutting a piece) or move one character; the fuel
exceeds the input length, so it never runs out. -/
def splitSegAux (sep : List Char) : Nat → List Char → List Char → List (List Char)
  | 0, acc, hay => [acc.reverse ++ hay]
  | _ + 1, acc, [] => [acc.reverse]
  | fuel + 1, acc, c :: rest =>
    if isPrefixList sep (c :: rest) then
      acc.reverse :: splitSegAux sep fuel [] ((c :: rest).drop sep.length)
    else
      splitSegAux sep fuel (c :: acc) rest

/-- Python `s.split(sep)` on a non-empty separator; the whole string for
an empty separator. -/
def splitOnStr (s sep : String) : List String :=
  if sep = "" then [s]
  else (splitSegAux sep.data (s.data.length + 1) [] s.data).map (fun l => ⟨l⟩)

/-- Python `s.strip()`: drop leading and trailing whitespace. -/
def strTrim (s : String) : String :=
  ⟨((s.data.dropWhile Char.isWhitespace).reverse.dropWhile Char.isWhitespace).reverse⟩

/-- Python `s.lower()`. -/
def strToLower (s : String) : String :=
  ⟨s.data.map Char.toLower⟩

/-- The last `n` characters of a string (`s[-n:]` in Python; used for the
overlap carried between adjacent chunks). -/
def takeRight (s : String) (n : Nat) : String :=
  ⟨s.data.drop (s.data.length - n)⟩

/-- Boolean substring test (`needle in hay` in Python). -/
def strContains (hay needle : String) : Bool :=
  containsList needle.data hay.data

/-- `a` is a prefix of `b`, stated by an explicit append witness. -/
def isPrefixStr (a b : String) : Prop :=
  ∃ t, b = a ++ t

/-! ## Chunk splitter (shared contract)

Modelled from the spec: LangChain's `CharacterTextSplitter` and
`RecursiveCharacterTextSplitter` are external library code, not part of
this repository.  The character splitter "splits on a single separator
string (default `"\n\n"`), accumulating segments until the configured
`chunk_size` is reached, carrying the last `chunk_overlap` characters into
the next chunk", and output never contains an empty chunk ("`content` is
never empty when present in the output sequence"). -/

/-- Accumulate separator-delimited segments into chunks.  `cur` is the
chunk under construction; when adding the next segment would exceed
`size`, the current chunk is emitted and its last `ov` characters are
carried into the next chunk.  Empty chunks are never emitted. -/
def charSplitAux (sep : String) (size ov : Nat) : String → List String → List String
  | cur, [] => if cur = "" then [] else [cur]
  | cur, seg :: rest =>
    if cur = "" then
      charSplitAux sep size ov seg rest
    else
      let cand := cur ++ sep ++ seg
      if cand.length ≤ size then
        charSplitAux sep size ov cand rest
      else
        cur :: charSplitAux sep size ov (takeRight cur ov ++ sep ++ seg) rest

/-- Modelled from the spec: the character splitter used by the Text
processor (`CharacterTextSplitter`, external LangChain code). -/
def characterSplit (sep : String) (size ov : Nat) (text : String) : List String :=
  charSplitAux sep size ov "" (splitOnStr text sep)

/-- Modelled from the spec: the recursive/tiered splitter used by the PDF,
Word and MHT processors (`RecursiveCharacterTextSplitter`, external
LangChain code).  It attempts separators in priority order, "splitting at
the first separator that yields pieces within the target chunk size", and
keeps an indivisible oversized unit whole rather than truncating it. -/
def recursiveSplit (seps : List String) (size ov : Nat) (text : String) : List String :=
  match seps with
  | [] => if text = "" then [] else [text]
  | sep :: rest =>
    if (splitOnStr text sep).all (fun p => p.length ≤ size) then
      charSplitAux sep size ov "" (splitOnStr text sep)
    else
      recursiveSplit rest size ov text

/-- The separator priority list shared by the PDF, Word and MHT
processors: paragraph break, line break, space, hard character cut. -/
def recursiveSeparators : List String := ["\n\n", "\n", " ", ""]

/-- LangChain `split_documents`: split each source document's content and
attach a copy of the source document's metadata to every resulting chunk. -/
def splitDocs (seps : List String) (size ov : Nat) (docs : List Doc) : List Doc :=
  docs.flatMap (fun d => (recursiveSplit seps size ov d.content).map (fun c => ⟨c, d.metadata⟩))

/-! ## Shared processor plumbing (`document_processor.py`) -/

/-- The facts about an input file the processors read from the path and
the filesystem: `file_path.name`, `str(file_path)`, `file_path.stem`,
`file_path.suffix`, and `stat().st_size`. -/
structure FileRef where
  name : String
  path : String
  stem : String
  suffix : String
  size : Nat
  deriving DecidableEq

/-- `DocumentProcessor.get_metadata_template` from `document_processor.py`. -/
def metadataTemplate (procName : String) (f : FileRef) : Metadata :=
  [("source", .s f.name), ("file_path", .s f.path), ("file_type", .s (strToLower f.suffix)),
   ("processor", .s procName), ("file_size", .n f.size)]

/-! ## PDF processor (`pdf_processor.py`) -/

/-- One PDF page, described by what each extraction primitive would
return: `page.get_text()`, the joined text of `page.get_text("blocks")`,
and the result of `_perform_ocr_on_page` (which is already stripped, and
`""` when OCR is unavailable or fails).  `extractError = some msg` models
`page.get_text()` raising with message `msg`. -/
structure Page where
  directText : String
  blocksText : String
  ocrText : String
  extractError : Option String := none
  deriving DecidableEq

/-- The per-page extraction result: the `(text, extraction_method)` unit
appended to `pages` (or `none` when the page contributes no content), and
whether `_perform_ocr_on_page` was invoked. -/
structure PageStep where
  unit : Option (String × String)
  ocrInvoked : Bool
  deriving DecidableEq

/-- The per-page fallback chain of `_process_pdf_internal` (lines
129-157): direct text layer, then block extraction when the text layer is
empty, then OCR when the text so far is still below 50 stripped
characters and OCR is available; OCR wins only when it returns more
stripped text than what is already in hand. -/
def pageExtract (ocrAvailable : Bool) (p : Page) : PageStep :=
  let text := p.directText
  let meth := "pymupdf_text"
  let st :=
    if strTrim text = "" ∨ (strTrim text).length < 50 then
      let tm :=
        if strTrim text = "" then
          (p.blocksText, if strTrim p.blocksText ≠ "" then "pymupdf_blocks" else meth)
        else (text, meth)
      if (strTrim tm.1 = "" ∨ (strTrim tm.1).length < 50) ∧ ocrAvailable then
        if p.ocrText ≠ "" ∧ (strTrim tm.1).length < (strTrim p.ocrText).length then
          ((p.ocrText, "tesseract_ocr"), true)
        else (tm, true)
      else (tm, false)
    else ((text, meth), false)
  ⟨if strTrim st.1.1 ≠ "" then some st.1 else none, st.2⟩

/-- The per-page `Document` built at lines 159-169: page number (1-based),
source path and the extraction method that produced the text. -/
def pageDoc (path : String) (idx : Nat) (text meth : String) : Doc :=
  ⟨text, [("page", .n (idx + 1)), ("source", .s path), ("extraction_method", .s meth)]⟩

/-- The page loop of `_process_pdf_internal`: build the per-page units in
order; a raising `page.get_text()` aborts the whole loop with that error. -/
def extractPdfPages (ocrAvailable : Bool) (path : String) : Nat → List Page → Except String (List Doc)
  | _, [] => .ok []
  | i, p :: ps =>
    match p.extractError with
    | some msg => .error msg
    | none =>
      match extractPdfPages ocrAvailable path (i + 1) ps with
      | .error msg => .error msg
      | .ok rest =>
        match (pageExtract ocrAvailable p).unit with
        | some tm => .ok (pageDoc path i tm.1 tm.2 :: rest)
        | none => .ok rest

/-- The metadata-enhancement loop of `_process_pdf_internal` (lines
193-208), with `i` the enumeration index. -/
def pdfStamp (base : Metadata) (stem : String) (cs co total : Nat) : Nat → List Doc → List Doc
  | _, [] => []
  | i, d :: ds =>
    { d with metadata :=
        (Metadata.update (Metadata.update d.metadata base)
          [("chunk_id", .s ("chunk_" ++ toString i)),
           ("document_id", .s (stem ++ "_pdf")),
           ("chunk_size", .n cs),
           ("chunk_overlap", .n co),
           ("splitting_method", .s "RecursiveCharacterTextSplitter"),
           ("total_chunks", .n total),
           ("loader_type", .s "PyMuPDF_OCR")]) }
      :: pdfStamp base stem cs co total (i + 1) ds

/-- A PDF input: the file reference plus its pages. -/
structure PdfFile where
  file : FileRef
  pages : List Page
  deriving DecidableEq

/-- `_process_pdf_internal`: the returned value (or wrapped re-raised
error), paired with whether `doc.close()` was called before returning.
The document handle is closed on the zero-page path (line 118) and after
the page loop (line 171); the `except` branch (lines 221-226) re-raises
the wrapped error without closing the handle. -/
def processPdf (ocrAvailable : Bool) (pf : PdfFile) (csIn coIn : Option Nat) :
    Except String (List Doc) × Bool :=
  let cs := csIn.getD 1800
  let co := coIn.getD 270
  if pf.pages.length = 0 then (.ok [], true)
  else
    match extractPdfPages ocrAvailable pf.file.path 0 pf.pages with
    | .error msg => (.error ("Error processing PDF " ++ pf.file.path ++ ": " ++ msg), false)
    | .ok pageDocs =>
      if pageDocs = [] then (.ok [], true)
      else
        let chunks := splitDocs recursiveSeparators cs co pageDocs
        (.ok (pdfStamp (metadataTemplate "PDFProcessor" pf.file) pf.file.stem
                cs co chunks.length 0 chunks), true)

/-! ## Text processor (`text_processor.py`) -/

/-- A text input: the file reference plus, for every candidate encoding
name, the decoded content (`none` models `UnicodeDecodeError` being
raised when loading with that encoding). -/
structure TextFile where
  file : FileRef
  decode : String → Option String

/-- `TextLoader(...).load_and_split(text_splitter)`: the loader yields one
document with `source` set to the path, and the character splitter divides
its content, each chunk inheriting the loader metadata. -/
def loadAndSplitText (path sep : String) (cs co : Nat) (content : String) : List Doc :=
  (characterSplit sep cs co content).map (fun c => ⟨c, [("source", .s path)]⟩)

/-- The metadata-enhancement loop of `_process_text_internal` (lines
123-136 and 160-170), with `i` the enumeration index. -/
def textStamp (base : Metadata) (stem : String) (cs co : Nat) (sep : String) (total : Nat) :
    Nat → List Doc → List Doc
  | _, [] => []
  | i, d :: ds =>
    { d with metadata :=
        (Metadata.update (Metadata.update d.metadata base)
          [("chunk_id", .s ("chunk_" ++ toString i)),
           ("document_id", .s (stem ++ "_text")),
           ("chunk_size", .n cs),
           ("chunk_overlap", .n co),
           ("separator", .s sep),
           ("splitting_method", .s "CharacterTextSplitter"),
           ("total_chunks", .n total)]) }
      :: textStamp base stem cs co sep total (i + 1) ds

/-- The ordered fallback encodings of `_process_text_internal` line 151. -/
def fallbackEncodings : List String := ["latin-1", "cp1252", "iso-8859-1"]

/-- The encoding-retry loop (lines 149-176): try each encoding in order,
return the stamped chunks of the first that decodes — recording the
winning encoding in the base metadata — and fail with the final message
when every encoding raises. -/
def tryFallbackEncodings (tf : TextFile) (cs co : Nat) (sep : String) :
    List String → Except String (List Doc)
  | [] => .error ("Could not decode text file " ++ tf.file.path ++ " with any supported encoding")
  | enc :: rest =>
    match tf.decode enc with
    | none => tryFallbackEncodings tf cs co sep rest
    | some content =>
      let docs := loadAndSplitText tf.file.path sep cs co content
      let base := metadataTemplate "TextProcessor" tf.file ++ [("encoding", .s enc)]
      .ok (textStamp base tf.file.stem cs co sep docs.length 0 docs)

/-- `_process_text_internal`: load as UTF-8; on decode failure run the
encoding-retry loop. -/
def processText (tf : TextFile) (csIn coIn : Option Nat) (sep : String) :
    Except String (List Doc) :=
  let cs := csIn.getD 300
  let co := coIn.getD 50
  match tf.decode "utf-8" with
  | some content =>
    let docs := loadAndSplitText tf.file.path sep cs co content
    if docs = [] then .ok []
    else
      .ok (textStamp (metadataTemplate "TextProcessor" tf.file) tf.file.stem
             cs co sep docs.length 0 docs)
  | none => tryFallbackEncodings tf cs co sep fallbackEncodings

/-! ## Word processor (`word_processor.py`) -/

/-- The legacy-`.doc` diagnostic appended at lines 186-192. -/
def wordNotZipNote : String :=
  "\nNote: Docx2txtLoader only supports .docx files (Word 2007+)." ++
  "\nFor legacy .doc files, please convert to .docx format first."

/-- The corrupted-file diagnostic appended at lines 193-195. -/
def wordCorruptedNote : String :=
  "\nNote: The file may be corrupted or in an unsupported Word format."

/-- The error message built by the `except` branch of
`_process_word_internal` (lines 178-196): the loader error is wrapped and
the two targeted notes are appended when the corresponding needle occurs
in `str(e).lower()`.  The needles are the literal strings of the source,
capital `W` included. -/
def wordErrorMessage (path err : String) : String :=
  let base := "Error processing Word document " ++ path ++ ": " ++ err
  if strContains (strToLower err) "file is not a zip file" then base ++ wordNotZipNote
  else if strContains (strToLower err) "file is not a Word file" then base ++ wordCorruptedNote
  else base

/-- Python `s.upper()`. -/
def strToUpper (s : String) : String :=
  ⟨s.data.map Char.toUpper⟩

/-- `file_path.suffix.upper().replace(".", "")` from `word_processor.py`
line 159 (e.g. `".docx"` to `"DOCX"`). -/
def docFormatOf (suffix : String) : String :=
  ⟨(strToUpper suffix).data.filter (fun c => c ≠ '.')⟩

/-- The metadata-enhancement loop of `_process_word_internal` (lines
147-165), with `i` the enumeration index. -/
def wordStamp (base : Metadata) (suffix stem : String) (cs co total : Nat) :
    Nat → List Doc → List Doc
  | _, [] => []
  | i, d :: ds =>
    { d with metadata :=
        (Metadata.update (Metadata.update d.metadata base)
          [("chunk_id", .s ("chunk_" ++ toString i)),
           ("document_id", .s (stem ++ "_word")),
           ("chunk_size", .n cs),
           ("chunk_overlap", .n co),
           ("splitting_method", .s "RecursiveCharacterTextSplitter"),
           ("separators", .s "paragraphs,lines,words,chars"),
           ("total_chunks", .n total),
           ("document_format", .s (docFormatOf suffix)),
           ("loader_type", .s "Docx2txtLoader"),
           ("supports_legacy_doc", .b false)]) }
      :: wordStamp base suffix stem cs co total (i + 1) ds

/-- A Word input: the file reference plus the result of
`Docx2txtLoader(...).load()` (`error` models the loader raising, `ok`
its returned document list). -/
structure WordFile where
  file : FileRef
  loadResult : Except String (List Doc)

/-- `_process_word_internal` (lines 104-196): load the whole document,
return an empty list (`success_empty`) when the loader yields nothing or
splitting leaves nothing, otherwise split with the recursive splitter and
stamp; a loader error is wrapped with the targeted diagnostics of the
`except` branch. -/
def processWord (wf : WordFile) (csIn coIn : Option Nat) : Except String (List Doc) :=
  let cs := csIn.getD 1000
  let co := coIn.getD 150
  match wf.loadResult with
  | .error e => .error (wordErrorMessage wf.file.path e)
  | .ok rawDocuments =>
    if rawDocuments = [] then .ok []
    else
      let docs := splitDocs recursiveSeparators cs co rawDocuments
      if docs = [] then .ok []
      else
        .ok (wordStamp (metadataTemplate "WordProcessor" wf.file) wf.file.suffix
              wf.file.stem cs co docs.length 0 docs)

/-! ## MHT processor (`mht_processor.py`) -/

/-- One part of a parsed MIME message: its content type and body. -/
structure MimePart where
  contentType : String
  body : String
  deriving DecidableEq

/-- A parsed MIME message as `_parse_mht_manually` inspects it: either
multipart (with the parts in `msg.walk()` order) or single-part with a
top-level content type and body. -/
structure MimeMsg where
  multipart : Bool
  parts : List MimePart
  contentType : String
  body : String
  deriving DecidableEq

/-- The HTML-gathering of `_parse_mht_manually` (lines 213-223): walk all
parts of a multipart message concatenating every non-empty `text/html`
body; for a single-part message take the body when it is `text/html`. -/
def mhtHtmlContent (m : MimeMsg) : String :=
  if m.multipart then
    m.parts.foldl
      (fun acc p => if p.contentType = "text/html" then
          (if p.body ≠ "" then acc ++ p.body else acc) else acc) ""
  else if m.contentType = "text/html" then m.body else ""

/-- `_parse_mht_manually` (lines 201-251): gather the HTML content; when
none is found return the empty list (lines 225-227); otherwise convert the
HTML to text and emit one `manual_mht_parser` document when the text is
non-blank.  `htmlToText` stands for `_extract_text_from_html` and
`titleOf` for the `<title>` regex extraction, both delegating to external
libraries (BeautifulSoup, `re`, `html`). -/
def parseMhtManually (htmlToText titleOf : String → String) (path : String)
    (m : MimeMsg) : List Doc :=
  let html := mhtHtmlContent m
  if html = "" then []
  else
    let text := htmlToText html
    if strTrim text ≠ "" then
      [⟨text, [("source", .s path), ("title", .s (titleOf html)),
               ("content_type", .s "text/html"),
               ("extraction_method", .s "manual_mht_parser")]⟩]
    else []

/-- The observable outcome of `_process_mht_internal`: chunks returned
with `success`, an empty list returned with `success_empty`, or a raised
error. -/
inductive MhtOutcome where
  | success (docs : List Doc)
  | successEmpty
  | failure (msg : String)
  deriving DecidableEq

/-- The metadata-enhancement loop of `_process_mht_internal` (lines
146-163): each chunk keeps its own `extraction_method` when present,
falling back to the method taken from the first chunk (`defaultMeth`). -/
def mhtStamp (base : Metadata) (stem : String) (cs co total : Nat) (defaultMeth : MetaVal) :
    Nat → List Doc → List Doc
  | _, [] => []
  | i, d :: ds =>
    { d with metadata :=
        (Metadata.update (Metadata.update d.metadata base)
          [("chunk_id", .s ("chunk_" ++ toString i)),
           ("document_id", .s (stem ++ "_mht")),
           ("chunk_size", .n cs),
           ("chunk_overlap", .n co),
           ("splitting_method", .s "RecursiveCharacterTextSplitter"),
           ("total_chunks", .n total),
           ("source_format", .s "mht/mhtml"),
           ("extraction_method",
             (Metadata.lookup d.metadata "extraction_method").getD defaultMeth)]) }
      :: mhtStamp base stem cs co total defaultMeth (i + 1) ds

/-- `_process_mht_internal` on the manual-parsing fallback path (the
primary `UnstructuredLoader` raised, line 111): parse manually; an empty
element list is logged `success_empty` and returned as an empty chunk
list (lines 118-125); otherwise split, stamp and return with `success`. -/
def processMhtFallback (htmlToText titleOf : String → String) (mf : FileRef)
    (m : MimeMsg) (csIn coIn : Option Nat) : MhtOutcome :=
  let cs := csIn.getD 1200
  let co := coIn.getD 180
  let elements := parseMhtManually htmlToText titleOf mf.path m
  if elements = [] then .successEmpty
  else
    let docs := splitDocs recursiveSeparators cs co elements
    let defaultMeth : MetaVal :=
      match docs with
      | [] => .s "unstructured_elements"
      | d :: _ => (Metadata.lookup d.metadata "extraction_method").getD (.s "unstructured_elements")
    .success (mhtStamp (metadataTemplate "MHTProcessor" mf) mf.stem cs co
                docs.length defaultMeth 0 docs)

/-! ## Processor registry (`document_processor.py`, `store_embeddings.py`) -/

/-- A processor as the registry sees it: its class name and the
extensions it declares. -/
structure ProcSpec where
  name : String
  exts : List String
  deriving DecidableEq

/-- `PDFProcessor.__init__`: supported extensions `{".pdf"}`. -/
def pdfProcessorSpec : ProcSpec := ⟨"PDFProcessor", [".pdf"]⟩

/-- `TextProcessor.__init__`: supported extensions `{".txt", ".md", ".text"}`. -/
def textProcessorSpec : ProcSpec := ⟨"TextProcessor", [".txt", ".md", ".text"]⟩

/-- `WordProcessor.__init__`: supported extensions `{".docx"}`. -/
def wordProcessorSpec : ProcSpec := ⟨"WordProcessor", [".docx"]⟩

/-- `MHTProcessor.__init__`: supported extensions `{".mht", ".mhtml"}`. -/
def mhtProcessorSpec : ProcSpec := ⟨"MHTProcessor", [".mht", ".mhtml"]⟩

/-- The registry's extension map: lower-cased extension to processor
name.  First match wins on lookup, so prepending models Python's
dictionary overwrite (the most recent registration shadows older ones). -/
structure Registry where
  extensionMap : List (String × String)
  deriving DecidableEq

/-- `ProcessorRegistry.register_processor`: record the processor under
every extension it declares, lower-cased. -/
def registerProcessor (r : Registry) (p : ProcSpec) : Registry :=
  ⟨p.exts.foldl (fun m e => (strToLower e, p.name) :: m) r.extensionMap⟩

/-- `ProcessorRegistry.get_processor_for_file`: look the lower-cased
suffix up in the extension map. -/
def getProcessorForFile (r : Registry) (suffix : String) : Option String :=
  List.lookup (strToLower suffix) r.extensionMap

/-- `ProcessorRegistry.get_supported_extensions` (a set in Python; here
the key list, read up to membership). -/
def supportedExtensionList (r : Registry) : List String :=
  r.extensionMap.map (fun kv => kv.1)

/-- `ProcessorRegistry.process_document`: resolve the processor for the
file and delegate to it (`run` maps a processor name to the result of its
`process_document`); with no processor, raise the unsupported-format
error of lines 234-237. -/
def registryProcessDocument (r : Registry) (run : String → Except String (List Doc))
    (f : FileRef) : Except String (List Doc) :=
  match getProcessorForFile r f.suffix with
  | none => .error ("No processor found for file type: " ++ f.suffix)
  | some p => run p

/-- `get_document_processor_registry` from `store_embeddings.py` (lines
55-69): a fresh registry with exactly the PDF, Text and Word processors
registered. -/
def defaultRegistry : Registry :=
  registerProcessor
    (registerProcessor (registerProcessor ⟨[]⟩ pdfProcessorSpec) textProcessorSpec)
    wordProcessorSpec

/-- One directory entry as `process_documents_from_directory` sees it:
name, suffix, whether it is a regular file, and the outcome its
processor's `process_document` would produce (the body of the `try`). -/
structure BatchFile where
  name : String
  suffix : String
  isFile : Bool
  outcome : Except String (List Doc)

/-- `process_documents_from_directory` (lines 92-123): only regular files
whose lower-cased suffix is in the supported set are processed at all; a
per-file error is caught, recorded (the `logger.error` call, modelled as
the second component) and the loop continues with the remaining files.
Files with unsupported extensions are skipped by the filter on line 93. -/
def processDirectory (supported : List String) : List BatchFile → List Doc × List (String × String)
  | [] => ([], [])
  | f :: rest =>
    if f.isFile ∧ strToLower f.suffix ∈ supported then
      match f.outcome with
      | .ok docs =>
        let r := processDirectory supported rest
        (docs ++ r.1, r.2)
      | .error e =>
        let r := processDirectory supported rest
        (r.1, (f.name, e) :: r.2)
    else processDirectory supported rest

/-! ## Observations on processor results -/

/-- Every chunk of a successful result has non-empty content (an error
result is not a chunk list, so it passes vacuously). -/
def contentsNonEmptyE : Except String (List Doc) → Bool
  | .ok docs => docs.all (fun d => !(d.content == ""))
  | .error _ => true

/-- A successful result in which every chunk's metadata records the given
encoding; `false` on an error result. -/
def encodingAll : Except String (List Doc) → String → Bool
  | .ok docs, enc => docs.all (fun d => Metadata.lookup d.metadata "encoding" == some (.s enc))
  | .error _, _ => false

/-- Every chunk of an MHT outcome has non-empty content (the empty and
error outcomes carry no chunks, so they pass vacuously). -/
def mhtContentsNonEmpty : MhtOutcome → Bool
  | .success docs => docs.all (fun d => !(d.content == ""))
  | .successEmpty => true
  | .failure _ => true

/-! ## Splitter lemmas -/

/-- Every chunk emitted by the accumulate loop is non-empty. -/
theorem mem_charSplitAux {sep : String} {size ov : Nat} :
    ∀ (segs : List String) (cur c : String),
      c ∈ charSplitAux sep size ov cur segs → c ≠ "" := by
  intro segs
  induction segs with
  | nil =>
    intro cur c hc
    unfold charSplitAux at hc
    by_cases h : cur = ""
    · simp [h] at hc
    · simp [h] at hc
      simpa [hc] using h
  | cons seg rest ih =>
    intro cur c hc
    unfold charSplitAux at hc
    by_cases h : cur = ""
    · simp only [if_pos h] at hc
      exact ih seg c hc
    · simp only [if_neg h] at hc
      by_cases hlen : (cur ++ sep ++ seg).length ≤ size
      · simp only [if_pos hlen] at hc
        exact ih _ c hc
      · simp only [if_neg hlen, List.mem_cons] at hc
        rcases hc with hc | hc
        · simpa [hc] using h
        · exact ih _ c hc

/-- The first chunk the accumulate loop emits extends the chunk under
construction. -/
theorem head_charSplitAux {sep : String} {size ov : Nat} :
    ∀ (segs : List String) (cur h : String),
      (charSplitAux sep size ov cur segs).head? = some h → ∃ t, h = cur ++ t := by
  intro segs
  induction segs with
  | nil =>
    intro cur h hh
    unfold charSplitAux at hh
    by_cases hc : cur = ""
    · simp [hc] at hh
    · simp [hc] at hh
      exact ⟨"", by rw [← hh, String.append_empty]⟩
  | cons seg rest ih =>
    intro cur h hh
    unfold charSplitAux at hh
    by_cases hc : cur = ""
    · simp only [if_pos hc] at hh
      obtain ⟨t, ht⟩ := ih seg h hh
      exact ⟨seg ++ t, by rw [ht, hc, String.empty_append]⟩
    · simp only [if_neg hc] at hh
      by_cases hlen : (cur ++ sep ++ seg).length ≤ size
      · simp only [if_pos hlen] at hh
        obtain ⟨t, ht⟩ := ih _ h hh
        exact ⟨sep ++ seg ++ t, by rw [ht]; simp [String.append_assoc]⟩
      · simp only [if_neg hlen, List.head?_cons, Option.some.injEq] at hh
        exact ⟨"", by rw [← hh, String.append_empty]⟩

/-- Adjacent chunks of the accumulate loop overlap: the last `ov`
characters of a chunk open the next chunk. -/
theorem chain_charSplitAux {sep : String} {size ov : Nat} :
    ∀ (segs : List String) (cur : String),
      List.Chain' (fun a b => isPrefixStr (takeRight a ov) b)
        (charSplitAux sep size ov cur segs) := by
  intro segs
  induction segs with
  | nil =>
    intro cur
    unfold charSplitAux
    by_cases hc : cur = "" <;> simp [hc]
  | cons seg rest ih =>
    intro cur
    unfold charSplitAux
    by_cases hc : cur = ""
    · simpa [hc] using ih seg
    · simp only [if_neg hc]
      by_cases hlen : (cur ++ sep ++ seg).length ≤ size
      · simp only [if_pos hlen]
        exact ih _
      · simp only [if_neg hlen]
        refine List.chain'_cons'.mpr ⟨?_, ih _⟩
        intro y hy
        obtain ⟨t, ht⟩ := head_charSplitAux rest _ y hy
        exact ⟨sep ++ seg ++ t, by rw [ht]; simp [String.append_assoc]⟩

/-- Every chunk of the tiered splitter is non-empty. -/
theorem mem_recursiveSplit :
    ∀ (seps : List String) (size ov : Nat) (text c : String),
      c ∈ recursiveSplit seps size ov text → c ≠ "" := by
  intro seps
  induction seps with
  | nil =>
    intro size ov text c hc
    unfold recursiveSplit at hc
    by_cases h : text = ""
    · simp [h] at hc
    · simp [h] at hc
      simpa [hc] using h
  | cons sep rest ih =>
    intro size ov text c hc
    unfold recursiveSplit at hc
    by_cases h : (splitOnStr text sep).all (fun p => p.length ≤ size)
    · simp only [if_pos h] at hc
      exact mem_charSplitAux _ _ c hc
    · simp only [if_neg h] at hc
      exact ih size ov text c hc

/-! ## C6 — character-splitter overlap -/

/-- C6: for every pair of adjacent chunks `i` and `i+1` produced by the
character splitter (Text processor) with overlap parameter `ov`, the last
`ov` characters of chunk `i` are exactly a prefix of chunk `i+1`. -/
theorem character_splitter_overlap_exact (sep : String) (size ov : Nat) (text : String)
    (i : Nat) (h : i + 1 < (characterSplit sep size ov text).length) :
    isPrefixStr (takeRight ((characterSplit sep size ov text).get ⟨i, by omega⟩) ov)
      ((characterSplit sep size ov text).get ⟨i + 1, h⟩) := by
  have hch : List.Chain' (fun a b => isPrefixStr (takeRight a ov) b)
      (characterSplit sep size ov text) :=
    @chain_charSplitAux sep size ov (splitOnStr text sep) ""
  exact (List.chain'_iff_get.mp hch) i (by omega)

/-- Witness for C6 at a concrete input: `"abcd\n\nefgh"` with size 5 and
overlap 2 splits into `["abcd", "cd\n\nefgh"]`, and the last two
characters of the first chunk open the second. -/
theorem character_splitter_overlap_exact_witness :
    0 + 1 < (characterSplit "\n\n" 5 2 "abcd\n\nefgh").length ∧
    isPrefixStr (takeRight ((characterSplit "\n\n" 5 2 "abcd\n\nefgh").get ⟨0, by decide⟩) 2)
      ((characterSplit "\n\n" 5 2 "abcd\n\nefgh").get ⟨1, by decide⟩) :=
  ⟨by decide, character_splitter_overlap_exact "\n\n" 5 2 "abcd\n\nefgh" 0 (by decide)⟩

/-! ## Stamp lemmas (metadata-enhancement loops) -/

/-- The Text stamp keeps the chunk count, numbers chunks `chunk_i` from
the start index, and stamps `total_chunks` on every chunk. -/
theorem textStamp_spec (base : Metadata) (stem : String) (cs co : Nat) (sep : String)
    (total : Nat) :
    ∀ (docs : List Doc) (i : Nat),
      (textStamp base stem cs co sep total i docs).length = docs.length ∧
      (textStamp base stem cs co sep total i docs).map
          (fun d => Metadata.lookup d.metadata "chunk_id")
        = (List.range' i docs.length).map (fun j => some (MetaVal.s ("chunk_" ++ toString j))) ∧
      (textStamp base stem cs co sep total i docs).map
          (fun d => Metadata.lookup d.metadata "total_chunks")
        = List.replicate docs.length (some (MetaVal.n total)) := by
  intro docs
  induction docs with
  | nil => intro i; exact ⟨rfl, rfl, rfl⟩
  | cons d ds ih =>
    intro i
    refine ⟨?_, ?_, ?_⟩
    · simp only [textStamp, List.length_cons]
      rw [(ih (i + 1)).1]
    · simp only [textStamp, List.length_cons, List.map_cons, List.range'_succ]
      rw [(ih (i + 1)).2.1]; rfl
    · simp only [textStamp, List.length_cons, List.map_cons, List.replicate_succ]
      rw [(ih (i + 1)).2.2]; rfl

/-- The PDF stamp keeps the chunk count, numbers chunks `chunk_i` from
the start index, and stamps `total_chunks` on every chunk. -/
theorem pdfStamp_spec (base : Metadata) (stem : String) (cs co total : Nat) :
    ∀ (docs : List Doc) (i : Nat),
      (pdfStamp base stem cs co total i docs).length = docs.length ∧
      (pdfStamp base stem cs co total i docs).map
          (fun d => Metadata.lookup d.metadata "chunk_id")
        = (List.range' i docs.length).map (fun j => some (MetaVal.s ("chunk_" ++ toString j))) ∧
      (pdfStamp base stem cs co total i docs).map
          (fun d => Metadata.lookup d.metadata "total_chunks")
        = List.replicate docs.length (some (MetaVal.n total)) := by
  intro docs
  induction docs with
  | nil => intro i; exact ⟨rfl, rfl, rfl⟩
  | cons d ds ih =>
    intro i
    refine ⟨?_, ?_, ?_⟩
    · simp only [pdfStamp, List.length_cons]
      rw [(ih (i + 1)).1]
    · simp only [pdfStamp, List.length_cons, List.map_cons, List.range'_succ]
      rw [(ih (i + 1)).2.1]; rfl
    · simp only [pdfStamp, List.length_cons, List.map_cons, List.replicate_succ]
      rw [(ih (i + 1)).2.2]; rfl

/-- The MHT stamp keeps the chunk count, numbers chunks `chunk_i` from
the start index, and stamps `total_chunks` on every chunk. -/
theorem mhtStamp_spec (base : Metadata) (stem : String) (cs co total : Nat) (dm : MetaVal) :
    ∀ (docs : List Doc) (i : Nat),
      (mhtStamp base stem cs co total dm i docs).length = docs.length ∧
      (mhtStamp base stem cs co total dm i docs).map
          (fun d => Metadata.lookup d.metadata "chunk_id")
        = (List.range' i docs.length).map (fun j => some (MetaVal.s ("chunk_" ++ toString j))) ∧
      (mhtStamp base stem cs co total dm i docs).map
          (fun d => Metadata.lookup d.metadata "total_chunks")
        = List.replicate docs.length (some (MetaVal.n total)) := by
  intro docs
  induction docs with
  | nil => intro i; exact ⟨rfl, rfl, rfl⟩
  | cons d ds ih =>
    intro i
    refine ⟨?_, ?_, ?_⟩
    · simp only [mhtStamp, List.length_cons]
      rw [(ih (i + 1)).1]
    · simp only [mhtStamp, List.length_cons, List.map_cons, List.range'_succ]
      rw [(ih (i + 1)).2.1]; rfl
    · simp only [mhtStamp, List.length_cons, List.map_cons, List.replicate_succ]
      rw [(ih (i + 1)).2.2]; rfl

/-- The Word stamp keeps the chunk count, numbers chunks `chunk_i` from
the start index, and stamps `total_chunks` on every chunk. -/
theorem wordStamp_spec (base : Metadata) (suffix stem : String) (cs co total : Nat) :
    ∀ (docs : List Doc) (i : Nat),
      (wordStamp base suffix stem cs co total i docs).length = docs.length ∧
      (wordStamp base suffix stem cs co total i docs).map
          (fun d => Metadata.lookup d.metadata "chunk_id")
        = (List.range' i docs.length).map (fun j => some (MetaVal.s ("chunk_" ++ toString j))) ∧
      (wordStamp base suffix stem cs co total i docs).map
          (fun d => Metadata.lookup d.metadata "total_chunks")
        = List.replicate docs.length (some (MetaVal.n total)) := by
  intro docs
  induction docs with
  | nil => intro i; exact ⟨rfl, rfl, rfl⟩
  | cons d ds ih =>
    intro i
    refine ⟨?_, ?_, ?_⟩
    · simp only [wordStamp, List.length_cons]
      rw [(ih (i + 1)).1]
    · simp only [wordStamp, List.length_cons, List.map_cons, List.range'_succ]
      rw [(ih (i + 1)).2.1]; rfl
    · simp only [wordStamp, List.length_cons, List.map_cons, List.replicate_succ]
      rw [(ih (i + 1)).2.2]; rfl

/-! ## C4 — contiguous chunk ids and uniform total_chunks -/

/-- C4: in every processor's metadata-enhancement loop, a document that
produces `N` chunks carries `chunk_id` values exactly `chunk_0` through
`chunk_(N-1)` in output order, and every chunk carries
`total_chunks == N` — for the Text, PDF, MHT and Word processors alike,
under any base metadata and chunk parameters. -/
theorem chunk_ids_contiguous_and_total_chunks_uniform :
    ∀ (base : Metadata) (stem suffix : String) (cs co : Nat) (sep : String)
      (dm : MetaVal) (docs : List Doc),
      ((textStamp base stem cs co sep docs.length 0 docs).length = docs.length ∧
       (textStamp base stem cs co sep docs.length 0 docs).map
           (fun d => Metadata.lookup d.metadata "chunk_id")
         = (List.range docs.length).map (fun j => some (MetaVal.s ("chunk_" ++ toString j))) ∧
       (textStamp base stem cs co sep docs.length 0 docs).map
           (fun d => Metadata.lookup d.metadata "total_chunks")
         = List.replicate docs.length (some (MetaVal.n docs.length))) ∧
      ((pdfStamp base stem cs co docs.length 0 docs).length = docs.length ∧
       (pdfStamp base stem cs co docs.length 0 docs).map
           (fun d => Metadata.lookup d.metadata "chunk_id")
         = (List.range docs.length).map (fun j => some (MetaVal.s ("chunk_" ++ toString j))) ∧
       (pdfStamp base stem cs co docs.length 0 docs).map
           (fun d => Metadata.lookup d.metadata "total_chunks")
         = List.replicate docs.length (some (MetaVal.n docs.length))) ∧
      ((mhtStamp base stem cs co docs.length dm 0 docs).length = docs.length ∧
       (mhtStamp base stem cs co docs.length dm 0 docs).map
           (fun d => Metadata.lookup d.metadata "chunk_id")
         = (List.range docs.length).map (fun j => some (MetaVal.s ("chunk_" ++ toString j))) ∧
       (mhtStamp base stem cs co docs.length dm 0 docs).map
           (fun d => Metadata.lookup d.metadata "total_chunks")
         = List.replicate docs.length (some (MetaVal.n docs.length))) ∧
      ((wordStamp base suffix stem cs co docs.length 0 docs).length = docs.length ∧
       (wordStamp base suffix stem cs co docs.length 0 docs).map
           (fun d => Metadata.lookup d.metadata "chunk_id")
         = (List.range docs.length).map (fun j => some (MetaVal.s ("chunk_" ++ toString j))) ∧
       (wordStamp base suffix stem cs co docs.length 0 docs).map
           (fun d => Metadata.lookup d.metadata "total_chunks")
         = List.replicate docs.length (some (MetaVal.n docs.length))) := by
  intro base stem suffix cs co sep dm docs
  rw [List.range_eq_range']
  exact ⟨textStamp_spec base stem cs co sep docs.length docs 0,
         pdfStamp_spec base stem cs co docs.length docs 0,
         mhtStamp_spec base stem cs co docs.length dm docs 0,
         wordStamp_spec base suffix stem cs co docs.length docs 0⟩

/-! ## Content-preservation lemmas -/

/-- The Text stamp does not touch chunk contents. -/
theorem textStamp_map_content (base : Metadata) (stem : String) (cs co : Nat)
    (sep : String) (total : Nat) :
    ∀ (docs : List Doc) (i : Nat),
      (textStamp base stem cs co sep total i docs).map Doc.content = docs.map Doc.content := by
  intro docs
  induction docs with
  | nil => intro i; rfl
  | cons d ds ih =>
    intro i
    simp only [textStamp, List.map_cons]
    rw [ih (i + 1)]

/-- The PDF stamp does not touch chunk contents. -/
theorem pdfStamp_map_content (base : Metadata) (stem : String) (cs co total : Nat) :
    ∀ (docs : List Doc) (i : Nat),
      (pdfStamp base stem cs co total i docs).map Doc.content = docs.map Doc.content := by
  intro docs
  induction docs with
  | nil => intro i; rfl
  | cons d ds ih =>
    intro i
    simp only [pdfStamp, List.map_cons]
    rw [ih (i + 1)]

/-- The MHT stamp does not touch chunk contents. -/
theorem mhtStamp_map_content (base : Metadata) (stem : String) (cs co total : Nat)
    (dm : MetaVal) :
    ∀ (docs : List Doc) (i : Nat),
      (mhtStamp base stem cs co total dm i docs).map Doc.content = docs.map Doc.content := by
  intro docs
  induction docs with
  | nil => intro i; rfl
  | cons d ds ih =>
    intro i
    simp only [mhtStamp, List.map_cons]
    rw [ih (i + 1)]

/-- The Word stamp does not touch chunk contents. -/
theorem wordStamp_map_content (base : Metadata) (suffix stem : String) (cs co total : Nat) :
    ∀ (docs : List Doc) (i : Nat),
      (wordStamp base suffix stem cs co total i docs).map Doc.content = docs.map Doc.content := by
  intro docs
  induction docs with
  | nil => intro i; rfl
  | cons d ds ih =>
    intro i
    simp only [wordStamp, List.map_cons]
    rw [ih (i + 1)]

/-- All-contents-non-empty follows from naming the content list. -/
theorem all_content_of_map {docs : List Doc} {l : List String}
    (hmap : docs.map Doc.content = l) (hl : ∀ c ∈ l, c ≠ "") :
    (docs.all fun d => !(d.content == "")) = true := by
  rw [List.all_eq_true]
  intro d hd
  have hmem : d.content ∈ l := by
    rw [← hmap]
    exact List.mem_map_of_mem Doc.content hd
  simpa using hl _ hmem

/-- Every chunk split out of a document batch is non-empty. -/
theorem splitDocs_content_ne (seps : List String) (size ov : Nat) (docs : List Doc) :
    ∀ c ∈ (splitDocs seps size ov docs).map Doc.content, c ≠ "" := by
  intro c hc
  simp only [splitDocs, List.map_flatMap, List.mem_flatMap, List.map_map,
    List.mem_map, Function.comp] at hc
  obtain ⟨src, hsrc, x, hx, rfl⟩ := hc
  exact mem_recursiveSplit seps size ov src.content x hx

/-- Every chunk the character splitter produces, with loader metadata
attached, is non-empty. -/
theorem loadAndSplit_content_ne (path sep : String) (cs co : Nat) (content : String) :
    ∀ c ∈ (loadAndSplitText path sep cs co content).map Doc.content, c ≠ "" := by
  intro c hc
  simp only [loadAndSplitText, List.map_map, List.mem_map, Function.comp] at hc
  obtain ⟨x, hx, rfl⟩ := hc
  exact mem_charSplitAux _ _ x hx

/-- The encoding-retry loop only returns non-empty chunks. -/
theorem tryFallbackEncodings_content (tf : TextFile) (cs co : Nat) (sep : String) :
    ∀ encs : List String,
      contentsNonEmptyE (tryFallbackEncodings tf cs co sep encs) = true := by
  intro encs
  induction encs with
  | nil => rfl
  | cons enc rest ih =>
    unfold tryFallbackEncodings
    cases h : tf.decode enc with
    | none => exact ih
    | some content =>
      simp only [contentsNonEmptyE]
      exact all_content_of_map
        ((textStamp_map_content _ _ _ _ _ _ _ 0).trans rfl)
        (loadAndSplit_content_ne tf.file.path sep cs co content)

/-! ## C7 — non-empty chunk contents -/

/-- C7: every chunk present in the output sequence of any processor —
Text, PDF, the MHT manual-parsing fallback, and Word — has non-empty
content. -/
theorem processor_chunks_content_nonempty :
    ∀ (tf : TextFile) (csIn coIn : Option Nat) (sep : String) (avail : Bool) (pf : PdfFile)
      (htmlToText titleOf : String → String) (mf : FileRef) (m : MimeMsg) (wf : WordFile),
      contentsNonEmptyE (processText tf csIn coIn sep) = true ∧
      contentsNonEmptyE (processPdf avail pf csIn coIn).1 = true ∧
      mhtContentsNonEmpty (processMhtFallback htmlToText titleOf mf m csIn coIn) = true ∧
      contentsNonEmptyE (processWord wf csIn coIn) = true := by
  intro tf csIn coIn sep avail pf htmlToText titleOf mf m wf
  refine ⟨?_, ?_, ?_, ?_⟩
  · unfold processText
    cases h : tf.decode "utf-8" with
    | some content =>
      by_cases hd : loadAndSplitText tf.file.path sep (csIn.getD 300) (coIn.getD 50) content = []
      · simp [hd, contentsNonEmptyE]
      · simp only [if_neg hd, contentsNonEmptyE]
        exact all_content_of_map
          ((textStamp_map_content _ _ _ _ _ _ _ 0).trans rfl)
          (loadAndSplit_content_ne tf.file.path sep (csIn.getD 300) (coIn.getD 50) content)
    | none => exact tryFallbackEncodings_content tf (csIn.getD 300) (coIn.getD 50) sep _
  · unfold processPdf
    by_cases hz : pf.pages.length = 0
    · simp [hz, contentsNonEmptyE]
    · simp only [if_neg hz]
      cases hx : extractPdfPages avail pf.file.path 0 pf.pages with
      | error msg => rfl
      | ok pageDocs =>
        by_cases hpd : pageDocs = []
        · simp [hpd, contentsNonEmptyE]
        · simp only [if_neg hpd, contentsNonEmptyE]
          exact all_content_of_map
            ((pdfStamp_map_content _ _ _ _ _ _ 0).trans rfl)
            (splitDocs_content_ne recursiveSeparators (csIn.getD 1800) (coIn.getD 270) pageDocs)
  · unfold processMhtFallback
    by_cases he : parseMhtManually htmlToText titleOf mf.path m = []
    · simp [he, mhtContentsNonEmpty]
    · simp only [if_neg he, mhtContentsNonEmpty]
      exact all_content_of_map
        ((mhtStamp_map_content _ _ _ _ _ _ _ 0).trans rfl)
        (splitDocs_content_ne recursiveSeparators (csIn.getD 1200) (coIn.getD 180)
          (parseMhtManually htmlToText titleOf mf.path m))
  · unfold processWord
    cases hw : wf.loadResult with
    | error e => rfl
    | ok rawDocuments =>
      by_cases hr : rawDocuments = []
      · simp [hr, contentsNonEmptyE]
      · simp only [if_neg hr]
        by_cases hd : splitDocs recursiveSeparators (csIn.getD 1000) (coIn.getD 150)
            rawDocuments = []
        · simp [hd, contentsNonEmptyE]
        · simp only [if_neg hd, contentsNonEmptyE]
          exact all_content_of_map
            ((wordStamp_map_content _ _ _ _ _ _ _ 0).trans rfl)
            (splitDocs_content_ne recursiveSeparators (csIn.getD 1000) (coIn.getD 150)
              rawDocuments)

/-! ## C2 — text-encoding fallback -/

/-- Stamping chunks whose base metadata records an encoding makes every
chunk's `encoding` field that encoding (the enhancement keys and the
template keys do not shadow it). -/
theorem textStamp_encodingAll (f : FileRef) (enc stem : String) (cs co : Nat)
    (sep path : String) (total : Nat) :
    ∀ (chunks : List String) (i : Nat),
      ((textStamp (metadataTemplate "TextProcessor" f ++ [("encoding", MetaVal.s enc)])
          stem cs co sep total i
          (chunks.map (fun c => ⟨c, [("source", MetaVal.s path)]⟩))).all
        (fun d => Metadata.lookup d.metadata "encoding" == some (MetaVal.s enc))) = true := by
  intro chunks
  induction chunks with
  | nil => intro i; rfl
  | cons c rest ih =>
    intro i
    simp only [List.map_cons, textStamp, List.all_cons, Bool.and_eq_true]
    refine ⟨?_, ih (i + 1)⟩
    show (some (MetaVal.s enc) == some (MetaVal.s enc)) = true
    exact beq_self_eq_true _

/-- C2 (amended): on a UTF-8 decode failure the Text processor retries
`latin-1`, `cp1252`, `iso-8859-1` in that order, stops at the first that
succeeds and records that encoding in every returned chunk's
`metadata["encoding"]`; when every encoding fails it raises an error
stating the file could not be decoded with any supported encoding —
without naming the individual encodings. -/
theorem text_encoding_fallback_order :
    ∀ (tf : TextFile) (csIn coIn : Option Nat) (sep : String),
      (∀ c, tf.decode "utf-8" = none → tf.decode "latin-1" = some c →
        encodingAll (processText tf csIn coIn sep) "latin-1" = true) ∧
      (∀ c, tf.decode "utf-8" = none → tf.decode "latin-1" = none →
        tf.decode "cp1252" = some c →
        encodingAll (processText tf csIn coIn sep) "cp1252" = true) ∧
      (∀ c, tf.decode "utf-8" = none → tf.decode "latin-1" = none →
        tf.decode "cp1252" = none → tf.decode "iso-8859-1" = some c →
        encodingAll (processText tf csIn coIn sep) "iso-8859-1" = true) ∧
      (tf.decode "utf-8" = none → tf.decode "latin-1" = none →
        tf.decode "cp1252" = none → tf.decode "iso-8859-1" = none →
        processText tf csIn coIn sep =
          .error ("Could not decode text file " ++ tf.file.path ++
            " with any supported encoding")) := by
  intro tf csIn coIn sep
  refine ⟨?_, ?_, ?_, ?_⟩
  · intro c h0 h1
    simp only [processText, fallbackEncodings, tryFallbackEncodings, h0, h1]
    exact textStamp_encodingAll tf.file "latin-1" tf.file.stem (csIn.getD 300)
      (coIn.getD 50) sep tf.file.path _ _ 0
  · intro c h0 h1 h2
    simp only [processText, fallbackEncodings, tryFallbackEncodings, h0, h1, h2]
    exact textStamp_encodingAll tf.file "cp1252" tf.file.stem (csIn.getD 300)
      (coIn.getD 50) sep tf.file.path _ _ 0
  · intro c h0 h1 h2 h3
    simp only [processText, fallbackEncodings, tryFallbackEncodings, h0, h1, h2, h3]
    exact textStamp_encodingAll tf.file "iso-8859-1" tf.file.stem (csIn.getD 300)
      (coIn.getD 50) sep tf.file.path _ _ 0
  · intro h0 h1 h2 h3
    simp only [processText, fallbackEncodings, tryFallbackEncodings, h0, h1, h2, h3]

/-- Counterexample to C2 as stated: when every encoding fails, the raised
diagnostic is a fixed sentence that names none of the attempted
encodings. -/
theorem text_encoding_error_names_no_encodings :
    processText ⟨⟨"f.txt", "/data/f.txt", "f", ".txt", 7⟩, fun _ => none⟩ none none "\n\n"
        = .error "Could not decode text file /data/f.txt with any supported encoding" ∧
    strContains "Could not decode text file /data/f.txt with any supported encoding"
        "latin-1" = false ∧
    strContains "Could not decode text file /data/f.txt with any supported encoding"
        "cp1252" = false ∧
    strContains "Could not decode text file /data/f.txt with any supported encoding"
        "iso-8859-1" = false :=
  ⟨rfl, by decide, by decide, by decide⟩

/-- Witness for C2 at concrete inputs: one file decodable only as
latin-1, one only as cp1252, one only as iso-8859-1, one not at all. -/
theorem text_encoding_fallback_order_witness :
    encodingAll (processText ⟨⟨"a.txt", "/d/a.txt", "a", ".txt", 2⟩,
        fun e => if e = "latin-1" then some "ab" else none⟩ none none "\n\n")
      "latin-1" = true ∧
    encodingAll (processText ⟨⟨"b.txt", "/d/b.txt", "b", ".txt", 2⟩,
        fun e => if e = "cp1252" then some "ab" else none⟩ none none "\n\n")
      "cp1252" = true ∧
    encodingAll (processText ⟨⟨"c.txt", "/d/c.txt", "c", ".txt", 2⟩,
        fun e => if e = "iso-8859-1" then some "ab" else none⟩ none none "\n\n")
      "iso-8859-1" = true ∧
    processText ⟨⟨"d.txt", "/d/d.txt", "d", ".txt", 2⟩, fun _ => none⟩ none none "\n\n"
        = .error ("Could not decode text file " ++ "/d/d.txt" ++
            " with any supported encoding") :=
  ⟨(text_encoding_fallback_order ⟨⟨"a.txt", "/d/a.txt", "a", ".txt", 2⟩,
      fun e => if e = "latin-1" then some "ab" else none⟩ none none "\n\n").1
        "ab" (by decide) (by decide),
   (text_encoding_fallback_order ⟨⟨"b.txt", "/d/b.txt", "b", ".txt", 2⟩,
      fun e => if e = "cp1252" then some "ab" else none⟩ none none "\n\n").2.1
        "ab" (by decide) (by decide) (by decide),
   (text_encoding_fallback_order ⟨⟨"c.txt", "/d/c.txt", "c", ".txt", 2⟩,
      fun e => if e = "iso-8859-1" then some "ab" else none⟩ none none "\n\n").2.2.1
        "ab" (by decide) (by decide) (by decide) (by decide),
   (text_encoding_fallback_order ⟨⟨"d.txt", "/d/d.txt", "d", ".txt", 2⟩,
      fun _ => none⟩ none none "\n\n").2.2.2
        (by decide) (by decide) (by decide) (by decide)⟩

/-! ## C1 — PDF per-page fallback chain -/

/-- Counterexample to C1 as stated: a page whose direct text layer is
non-empty but shorter than 50 stripped characters still invokes OCR, and
when OCR returns more text the unit is tagged `tesseract_ocr`, not
`pymupdf_text`. -/
theorem pdf_nonempty_text_page_still_triggers_ocr :
    strTrim "short" ≠ "" ∧
    (pageExtract true
      ⟨"short", "",
       "abcdefghijklmnopqrstuvwxyzabcdefghijklmnopqrstuvwxyzabcdefgh", none⟩).ocrInvoked
      = true ∧
    (pageExtract true
      ⟨"short", "",
       "abcdefghijklmnopqrstuvwxyzabcdefghijklmnopqrstuvwxyzabcdefgh", none⟩).unit
      = some ("abcdefghijklmnopqrstuvwxyzabcdefghijklmnopqrstuvwxyzabcdefgh",
              "tesseract_ocr") :=
  ⟨by decide, by decide, by decide⟩

/-- C1 (amended): a page whose direct text layer yields at least 50
stripped characters never invokes OCR and its unit carries
`extraction_method == "pymupdf_text"`; a page with zero stripped text from
both the text layer and block extraction, with OCR available, always
invokes OCR and contributes a unit exactly when OCR found text, that unit
carrying `extraction_method == "tesseract_ocr"` with the non-empty OCR
output as content. -/
theorem pdf_page_fallback_extraction :
    (∀ (avail : Bool) (p : Page), 50 ≤ (strTrim p.directText).length →
      (pageExtract avail p).ocrInvoked = false ∧
      (pageExtract avail p).unit = some (p.directText, "pymupdf_text")) ∧
    (∀ (p : Page), strTrim p.directText = "" → strTrim p.blocksText = "" →
      strTrim p.ocrText = p.ocrText →
      (pageExtract true p).ocrInvoked = true ∧
      (pageExtract true p).unit =
        (if p.ocrText = "" then none else some (p.ocrText, "tesseract_ocr"))) := by
  constructor
  · intro avail p h50
    have hne : strTrim p.directText ≠ "" := by
      intro h
      rw [h] at h50
      exact absurd h50 (by decide)
    have hcond : ¬(strTrim p.directText = "" ∨ (strTrim p.directText).length < 50) := by
      push_neg
      exact ⟨hne, by omega⟩
    simp only [pageExtract]
    rw [if_neg hcond]
    refine ⟨rfl, ?_⟩
    show (if strTrim p.directText ≠ "" then some (p.directText, "pymupdf_text")
        else none) = some (p.directText, "pymupdf_text")
    rw [if_pos hne]
  · intro p h1 h2 h3
    have e1 : strTrim p.directText = "" ∨ (strTrim p.directText).length < 50 := Or.inl h1
    simp only [pageExtract]
    rw [if_pos e1, if_pos h1, if_neg (not_not_intro h2)]
    have e2 : (strTrim (p.blocksText, "pymupdf_text").1 = "" ∨
        (strTrim (p.blocksText, "pymupdf_text").1).length < 50) ∧ True :=
      ⟨Or.inl h2, trivial⟩
    rw [if_pos e2]
    by_cases hoc : p.ocrText = ""
    · have e3 : ¬(p.ocrText ≠ "" ∧
          (strTrim (p.blocksText, "pymupdf_text").1).length < (strTrim p.ocrText).length) :=
        fun hx => hx.1 hoc
      rw [if_neg e3, if_pos hoc]
      refine ⟨rfl, ?_⟩
      show (if strTrim p.blocksText ≠ "" then some (p.blocksText, "pymupdf_text")
          else none) = none
      rw [if_neg (not_not_intro h2)]
    · have hdata : p.ocrText.data ≠ [] := by
        intro hl
        exact hoc (String.ext hl)
      have hlen : 0 < (strTrim p.ocrText).length := by
        rw [h3]
        exact List.length_pos.mpr hdata
      have e3 : p.ocrText ≠ "" ∧
          (strTrim (p.blocksText, "pymupdf_text").1).length < (strTrim p.ocrText).length := by
        refine ⟨hoc, ?_⟩
        show (strTrim p.blocksText).length < _
        rw [h2]
        simpa using hlen
      rw [if_pos e3, if_neg hoc]
      refine ⟨rfl, ?_⟩
      show (if strTrim p.ocrText ≠ "" then some (p.ocrText, "tesseract_ocr")
          else none) = some (p.ocrText, "tesseract_ocr")
      rw [if_pos (by rw [h3]; exact hoc)]

/-- Witness for C1 at concrete inputs: a 52-character text-layer page is
taken as `pymupdf_text` with no OCR call, and a blank page whose OCR
returns `"hello"` yields a `tesseract_ocr` unit. -/
theorem pdf_page_fallback_extraction_witness :
    ((pageExtract false
        ⟨"abcdefghijklmnopqrstuvwxyz abcdefghijklmnopqrstuvwxyz", "", "", none⟩).ocrInvoked
          = false ∧
     (pageExtract false
        ⟨"abcdefghijklmnopqrstuvwxyz abcdefghijklmnopqrstuvwxyz", "", "", none⟩).unit
          = some ("abcdefghijklmnopqrstuvwxyz abcdefghijklmnopqrstuvwxyz",
                  "pymupdf_text")) ∧
    ((pageExtract true ⟨"", "", "hello", none⟩).ocrInvoked = true ∧
     (pageExtract true ⟨"", "", "hello", none⟩).unit =
       (if ("hello" : String) = "" then none else some ("hello", "tesseract_ocr"))) :=
  ⟨pdf_page_fallback_extraction.1 false
      ⟨"abcdefghijklmnopqrstuvwxyz abcdefghijklmnopqrstuvwxyz", "", "", none⟩ (by decide),
   pdf_page_fallback_extraction.2 ⟨"", "", "hello", none⟩
      (by decide) (by decide) (by decide)⟩

/-! ## C3 — MHT manual parse with no HTML part -/

/-- Gathering HTML over parts none of which is `text/html` leaves the
accumulator unchanged. -/
theorem foldl_html_skip :
    ∀ (parts : List MimePart), (∀ p ∈ parts, p.contentType ≠ "text/html") →
      ∀ acc : String,
        parts.foldl (fun acc p => if p.contentType = "text/html" then
            (if p.body ≠ "" then acc ++ p.body else acc) else acc) acc = acc := by
  intro parts
  induction parts with
  | nil => intro _ acc; rfl
  | cons q qs ih =>
    intro hp acc
    simp only [List.foldl_cons]
    rw [if_neg (hp q (List.mem_cons_self q qs))]
    exact ih (fun p hp2 => hp p (List.mem_cons_of_mem q hp2)) acc

/-- A message with no `text/html` part yields no HTML content. -/
theorem mhtHtmlContent_eq_empty (m : MimeMsg)
    (hp : ∀ p ∈ m.parts, p.contentType ≠ "text/html")
    (hc : m.contentType ≠ "text/html") : mhtHtmlContent m = "" := by
  unfold mhtHtmlContent
  cases hmp : m.multipart with
  | false => simp [hc]
  | true => simp only [if_pos rfl, if_true]; exact foldl_html_skip m.parts hp ""

/-- Counterexample to C3 as stated: on the manual-parsing fallback path,
a multipart MHT message whose only part is `text/plain` makes the
processor return an empty chunk list recorded `success_empty` — it does
not fail with a no-content error. -/
theorem mht_no_html_returns_success_empty :
    processMhtFallback (fun h => h) (fun _ => "")
      ⟨"page.mht", "/docs/page.mht", "page", ".mht", 512⟩
      ⟨true, [⟨"text/plain", "plain body"⟩], "", ""⟩ none none
      = MhtOutcome.successEmpty := rfl

/-- C3 (amended): when the parsed MIME message contains no `text/html`
part, the manual fallback returns an empty element list and the processor
returns an empty chunk list with status `success_empty` (it does not
raise a no-content error). -/
theorem mht_no_html_part_success_empty :
    ∀ (htmlToText titleOf : String → String) (mf : FileRef) (m : MimeMsg)
      (csIn coIn : Option Nat),
      (∀ p ∈ m.parts, p.contentType ≠ "text/html") →
      m.contentType ≠ "text/html" →
      processMhtFallback htmlToText titleOf mf m csIn coIn = MhtOutcome.successEmpty := by
  intro htmlToText titleOf mf m csIn coIn hp hc
  have h0 : mhtHtmlContent m = "" := mhtHtmlContent_eq_empty m hp hc
  simp [processMhtFallback, parseMhtManually, h0]

/-- Witness for C3 at a concrete input: a single-part `text/plain`
message on the fallback path. -/
theorem mht_no_html_part_success_empty_witness :
    processMhtFallback (fun h => h) (fun _ => "")
      ⟨"q.mht", "/docs/q.mht", "q", ".mht", 100⟩
      ⟨false, [], "text/plain", "body"⟩ none none = MhtOutcome.successEmpty :=
  mht_no_html_part_success_empty (fun h => h) (fun _ => "")
    ⟨"q.mht", "/docs/q.mht", "q", ".mht", 100⟩
    ⟨false, [], "text/plain", "body"⟩ none none (by simp) (by decide)

/-! ## C5 — unsupported format at the registry and in a directory batch -/

/-- Counterexample to C5 as stated: in a directory batch, the file
`c.xyz` (no registered processor) is filtered out before processing, so
no failure is recorded for it — the error list is empty while `a.txt` is
still processed. -/
theorem directory_batch_skips_unsupported_silently :
    processDirectory (supportedExtensionList defaultRegistry)
      [⟨"c.xyz", ".xyz", true, .ok []⟩,
       ⟨"a.txt", ".txt", true, .ok [⟨"alpha", [("source", MetaVal.s "a.txt")]⟩]⟩]
      = ([⟨"alpha", [("source", MetaVal.s "a.txt")]⟩], []) := by decide

/-- C5 (amended): a file whose extension has no registered processor
makes the registry's process operation fail with the unsupported-format
error; in directory-batch processing such a file is silently skipped by
the supported-extension filter (no failure recorded), while a per-file
processing error on a supported file is recorded for that file and the
remaining files are still processed. -/
theorem registry_unsupported_and_batch_error_recording :
    (∀ (r : Registry) (run : String → Except String (List Doc)) (f : FileRef),
      getProcessorForFile r f.suffix = none →
      registryProcessDocument r run f =
        .error ("No processor found for file type: " ++ f.suffix)) ∧
    (∀ (supported : List String) (f : BatchFile) (rest : List BatchFile),
      ¬(f.isFile ∧ strToLower f.suffix ∈ supported) →
      processDirectory supported (f :: rest) = processDirectory supported rest) ∧
    (∀ (supported : List String) (f : BatchFile) (rest : List BatchFile) (e : String),
      f.isFile = true → strToLower f.suffix ∈ supported → f.outcome = .error e →
      processDirectory supported (f :: rest) =
        ((processDirectory supported rest).1,
         (f.name, e) :: (processDirectory supported rest).2)) := by
  refine ⟨?_, ?_, ?_⟩
  · intro r run f h
    unfold registryProcessDocument
    rw [h]
  · intro supported f rest h
    simp only [processDirectory]
    rw [if_neg h]
  · intro supported f rest e hf hs ho
    simp only [processDirectory]
    rw [if_pos ⟨hf, hs⟩, ho]

/-- Witness for C5 at concrete inputs: an `.xyz` file fails at the
registry, is skipped by the batch filter, and an erroring `.txt` file is
recorded while the rest of the batch continues. -/
theorem registry_unsupported_and_batch_error_recording_witness :
    registryProcessDocument defaultRegistry (fun _ => .ok [])
        ⟨"c.xyz", "/d/c.xyz", "c", ".xyz", 1⟩
      = .error ("No processor found for file type: " ++ ".xyz") ∧
    processDirectory (supportedExtensionList defaultRegistry)
        [⟨"c.xyz", ".xyz", true, .ok []⟩, ⟨"a.txt", ".txt", true, .ok [⟨"alpha", []⟩]⟩]
      = processDirectory (supportedExtensionList defaultRegistry)
          [⟨"a.txt", ".txt", true, .ok [⟨"alpha", []⟩]⟩] ∧
    processDirectory (supportedExtensionList defaultRegistry)
        [⟨"b.txt", ".txt", true, .error "boom"⟩, ⟨"a.txt", ".txt", true, .ok [⟨"alpha", []⟩]⟩]
      = ((processDirectory (supportedExtensionList defaultRegistry)
            [⟨"a.txt", ".txt", true, .ok [⟨"alpha", []⟩]⟩]).1,
         ("b.txt", "boom") ::
           (processDirectory (supportedExtensionList defaultRegistry)
             [⟨"a.txt", ".txt", true, .ok [⟨"alpha", []⟩]⟩]).2) :=
  ⟨registry_unsupported_and_batch_error_recording.1 defaultRegistry (fun _ => .ok [])
      ⟨"c.xyz", "/d/c.xyz", "c", ".xyz", 1⟩ (by decide),
   registry_unsupported_and_batch_error_recording.2.1
      (supportedExtensionList defaultRegistry) ⟨"c.xyz", ".xyz", true, .ok []⟩
      [⟨"a.txt", ".txt", true, .ok [⟨"alpha", []⟩]⟩] (by decide),
   registry_unsupported_and_batch_error_recording.2.2
      (supportedExtensionList defaultRegistry) ⟨"b.txt", ".txt", true, .error "boom"⟩
      [⟨"a.txt", ".txt", true, .ok [⟨"alpha", []⟩]⟩] "boom"
      rfl (by decide) rfl⟩

/-! ## C8 — PDF document handle on error paths -/

/-- C8: the claim is right and the code is wrong.  On the zero-page path
and the success path the document handle is closed before returning, but
when extraction raises mid-processing the wrapped error is re-raised from
the `except` branch without closing the handle (there is no
`try`/`finally` around the page loop). -/
theorem pdf_handle_not_closed_on_extraction_error :
    processPdf true ⟨⟨"a.pdf", "/docs/a.pdf", "a", ".pdf", 1024⟩,
        [⟨"", "", "", some "page read failed"⟩]⟩ none none
      = (.error "Error processing PDF /docs/a.pdf: page read failed", false) ∧
    (processPdf true ⟨⟨"b.pdf", "/docs/b.pdf", "b", ".pdf", 64⟩,
        [⟨"abcdefghijklmnopqrstuvwxyz abcdefghijklmnopqrstuvwxyz", "", "", none⟩]⟩
        none none).2 = true ∧
    processPdf true ⟨⟨"c.pdf", "/docs/c.pdf", "c", ".pdf", 0⟩, []⟩ none none
      = (.ok [], true) :=
  ⟨rfl, rfl, rfl⟩

/-! ## C9 — Word loader diagnostics -/

/-- C9: the claim is right and the code is wrong.  The legacy-`.doc`
diagnostic is appended for a "file is not a zip file" loader error, but
the corrupted-file branch compares the needle `"file is not a Word file"`
— capital `W` — against the lower-cased error text, so it can never
match: a "file is not a Word file" loader error gets no corrupted-file
note. -/
theorem word_corrupted_diagnostic_unreachable :
    wordErrorMessage "/docs/bad.docx" "file is not a Word file"
      = "Error processing Word document /docs/bad.docx: file is not a Word file" ∧
    strContains (wordErrorMessage "/docs/bad.docx" "file is not a Word file")
      "may be corrupted" = false ∧
    wordErrorMessage "/docs/legacy.docx" "File is not a zip file"
      = "Error processing Word document /docs/legacy.docx: File is not a zip file"
        ++ wordNotZipNote ∧
    strContains (wordErrorMessage "/docs/legacy.docx" "File is not a zip file")
      "convert to .docx" = true :=
  ⟨rfl, by decide, rfl, by decide⟩

/-! ## C10 — default registry has no MHT processor -/

/-- C10: the default registry registers only the PDF, Text and Word
processors, so its supported extensions are exactly `.pdf`, `.txt`,
`.md`, `.text`, `.docx`; `.mht`/`.mhtml` files resolve to no processor
and registry-level processing fails as unsupported, even though the MHT
processor class declares those extensions. -/
theorem default_registry_excludes_mht :
    (∀ e : String, e ∈ supportedExtensionList defaultRegistry ↔
      e ∈ [".pdf", ".txt", ".md", ".text", ".docx"]) ∧
    getProcessorForFile defaultRegistry ".mht" = none ∧
    getProcessorForFile defaultRegistry ".mhtml" = none ∧
    (∀ (run : String → Except String (List Doc)) (name path stem : String) (size : Nat),
      registryProcessDocument defaultRegistry run ⟨name, path, stem, ".mht", size⟩
        = .error ("No processor found for file type: " ++ ".mht") ∧
      registryProcessDocument defaultRegistry run ⟨name, path, stem, ".mhtml", size⟩
        = .error ("No processor found for file type: " ++ ".mhtml")) ∧
    ".mht" ∈ mhtProcessorSpec.exts ∧ ".mhtml" ∈ mhtProcessorSpec.exts := by
  refine ⟨?_, rfl, rfl, ?_, by decide, by decide⟩
  · intro e
    have hk : supportedExtensionList defaultRegistry
        = [".docx", ".text", ".md", ".txt", ".pdf"] := rfl
    rw [hk]
    simp only [List.mem_cons, List.not_mem_nil, or_false]
    tauto
  · intro run name path stem size
    exact ⟨rfl, rfl⟩

end RagStore
